import Mathlib

/-!
Verification development for the moonlib Lua class library.

Part 1 embeds the Lua stack API fragment used by the inline helpers of
`luaclasslib.h` (the user-value accessors, `luaC_mcall`, and the field
assignments of `luaC_newclass`).  The Lua value stack is a list with the
top at the head; negative API indices count from the top, so `-1` is the
head, and a positive index `i` counts from the bottom.  Tables are
modelled without metatables, so `lua_gettable`, `lua_getfield`,
`lua_settable` and `lua_setfield` act raw on table values; field access
on non-table values and function calls are delegated to a host
environment (`LuaEnv`) that interprets them as pure functions.

Part 2 models the parts of the class runtime whose implementation file
is not present in the repository snapshot (only its header declarations
and tests are); those definitions are marked `Modelled from the spec:`.
-/

/-- Association-list lookup, first binding wins (models Lua table and
registry lookups over a finite store). -/
def assoc {α β : Type} [DecidableEq α] : List (α × β) → α → Option β
  | [], _ => none
  | (a, b) :: t, k => if a = k then some b else assoc t k

/-- Association-list update: replaces the first binding of the key, or
appends a fresh binding. -/
def setAssoc {α β : Type} [DecidableEq α] : List (α × β) → α → β → List (α × β)
  | [], k, v => [(k, v)]
  | (a, b) :: t, k, v => if a = k then (k, v) :: t else (a, b) :: setAssoc t k v

theorem assoc_setAssoc_self {α β : Type} [DecidableEq α]
    (l : List (α × β)) (k : α) (v : β) : assoc (setAssoc l k v) k = some v := by
  induction l with
  | nil => simp [assoc, setAssoc]
  | cons hd t ih =>
    obtain ⟨a, b⟩ := hd
    by_cases h : a = k
    · simp [assoc, setAssoc, h]
    · simp [assoc, setAssoc, h, ih]

/-- Lua values.  Heap-allocated objects (tables, userdata, functions)
are represented by identities into the side stores of `LuaState`;
function behaviour lives in `LuaEnv`. -/
inductive LValue where
  | nil
  | boolean (b : Bool)
  | light (p : Nat)
  | number (n : Int)
  | str (s : String)
  | table (id : Nat)
  | fn (id : Nat)
  | userdata (id : Nat)
deriving DecidableEq, Repr

/-- `LUA_TNONE` type code. -/
def LUA_TNONE : Int := -1
/-- `LUA_TNIL` type code. -/
def LUA_TNIL : Int := 0
/-- `LUA_TTABLE` type code. -/
def LUA_TTABLE : Int := 5

/-- The Lua type code of a value, as returned by the stack API. -/
def ltype : LValue → Int
  | .nil => 0
  | .boolean _ => 1
  | .light _ => 2
  | .number _ => 3
  | .str _ => 4
  | .table _ => 5
  | .fn _ => 6
  | .userdata _ => 7

/-- A Lua state: the value stack (head = top), the table store, and the
user-value slots of full userdata (keyed by userdata identity and slot
number, as accessed by `lua_getiuservalue`). -/
structure LuaState where
  stack : List LValue
  tables : List (Nat × List (LValue × LValue))
  uvals : List ((Nat × Nat) × LValue)
deriving DecidableEq, Repr

/-- Host-environment behaviour the embedding delegates: `__index`-style
field access on non-table values (metatable machinery) and calling a
value.  Calls are modelled as pure: argument list in, result list out. -/
structure LuaEnv where
  getfieldFn : LValue → String → LValue
  callFn : LValue → List LValue → List LValue

/-- Converts a Lua stack index to a position in the head-at-top list:
`-1` is position `0`; a positive index counts from the stack bottom. -/
def stackIdx (st : List LValue) (idx : Int) : Nat :=
  if idx < 0 then (-idx).toNat - 1 else st.length - idx.toNat

/-- The value at a stack index (`nil` when out of range). -/
def valueAt (st : List LValue) (idx : Int) : LValue :=
  (st[stackIdx st idx]?).getD .nil

/-- Raw read `t[k]` from the table store. -/
def tblGet (S : LuaState) (tid : Nat) (k : LValue) : LValue :=
  (assoc ((assoc S.tables tid).getD []) k).getD .nil

/-- Raw write `t[k] = v` into the table store. -/
def tblSet (S : LuaState) (tid : Nat) (k v : LValue) : LuaState :=
  { S with tables := setAssoc S.tables tid (setAssoc ((assoc S.tables tid).getD []) k v) }

/-- `lua_pushnil`. -/
def lua_pushnil (S : LuaState) : LuaState :=
  { S with stack := .nil :: S.stack }

/-- `lua_pushvalue`: pushes a copy of the value at the given index. -/
def lua_pushvalue (S : LuaState) (idx : Int) : LuaState :=
  { S with stack := valueAt S.stack idx :: S.stack }

/-- `lua_pop`. -/
def lua_pop (S : LuaState) (n : Nat) : LuaState :=
  { S with stack := S.stack.drop n }

/-- `lua_remove`: removes the element at the given index, shifting the
elements above it down. -/
def lua_remove (S : LuaState) (idx : Int) : LuaState :=
  { S with stack := S.stack.eraseIdx (stackIdx S.stack idx) }

/-- `lua_insert`: moves the top element into the given index, shifting
up the elements above that slot. -/
def lua_insert (S : LuaState) (idx : Int) : LuaState :=
  { S with stack :=
      match S.stack with
      | [] => []
      | a :: t => t.take (stackIdx S.stack idx) ++ a :: t.drop (stackIdx S.stack idx) }

/-- `lua_rotate` for a negative index: rotates the top `-idx` elements
by `n` positions towards the top. -/
def lua_rotate (S : LuaState) (idx : Int) (n : Nat) : LuaState :=
  { S with stack :=
      (S.stack.take (-idx).toNat).drop n ++ (S.stack.take (-idx).toNat).take n
        ++ S.stack.drop (-idx).toNat }

/-- `lua_getiuservalue`: pushes the `uv`-th user value of the userdata
at `idx` and returns its type; pushes `nil` and returns `LUA_TNONE`
when the slot does not exist. -/
def lua_getiuservalue (S : LuaState) (idx : Int) (uv : Nat) : LuaState × Int :=
  match valueAt S.stack idx with
  | .userdata u =>
    match assoc S.uvals (u, uv) with
    | some w => ({ S with stack := w :: S.stack }, ltype w)
    | none => ({ S with stack := .nil :: S.stack }, LUA_TNONE)
  | _ => ({ S with stack := .nil :: S.stack }, LUA_TNONE)

/-- `lua_rawget`: `t` at `idx`, key at the top; pops the key and pushes
`t[k]`, returning its type.  (Only meaningful when `idx` holds a
table, as in all guarded uses below.) -/
def lua_rawget (S : LuaState) (idx : Int) : LuaState × Int :=
  match valueAt S.stack idx, S.stack with
  | .table tid, k :: rest =>
    let v := tblGet S tid k
    ({ S with stack := v :: rest }, ltype v)
  | _, _ => ({ S with stack := .nil :: S.stack.drop 1 }, LUA_TNIL)

/-- `lua_rawset`: `t` at `idx`, value at the top, key below it; pops
both and performs `t[k] = v`. -/
def lua_rawset (S : LuaState) (idx : Int) : LuaState :=
  match valueAt S.stack idx, S.stack with
  | .table tid, v :: k :: rest => { tblSet S tid k v with stack := rest }
  | _, _ => S

/-- `lua_rawgetp`: pushes `t[p]` where `p` is a light userdata key. -/
def lua_rawgetp (S : LuaState) (idx : Int) (p : Nat) : LuaState × Int :=
  match valueAt S.stack idx with
  | .table tid =>
    let v := tblGet S tid (.light p)
    ({ S with stack := v :: S.stack }, ltype v)
  | _ => ({ S with stack := .nil :: S.stack }, LUA_TNIL)

/-- `lua_rawsetp`: value at the top; pops it and performs `t[p] = v`. -/
def lua_rawsetp (S : LuaState) (idx : Int) (p : Nat) : LuaState :=
  match valueAt S.stack idx, S.stack with
  | .table tid, v :: rest => { tblSet S tid (.light p) v with stack := rest }
  | _, _ => S

/-- `lua_gettable` on a metatable-less table behaves like `lua_rawget`;
all uses below are guarded by a `LUA_TTABLE` check. -/
def lua_gettable (S : LuaState) (idx : Int) : LuaState × Int :=
  lua_rawget S idx

/-- `lua_settable` on a metatable-less table behaves like `lua_rawset`. -/
def lua_settable (S : LuaState) (idx : Int) : LuaState :=
  lua_rawset S idx

/-- `lua_getfield`: pushes `t[k]` for a string key and returns its type.
On a table the access is raw (no metatable modelled); on any other
value the host environment resolves the access (metatable machinery,
e.g. class method resolution on instances). -/
def lua_getfield (env : LuaEnv) (S : LuaState) (idx : Int) (k : String) : LuaState × Int :=
  match valueAt S.stack idx with
  | .table tid =>
    let v := tblGet S tid (.str k)
    ({ S with stack := v :: S.stack }, ltype v)
  | w =>
    let v := env.getfieldFn w k
    ({ S with stack := v :: S.stack }, ltype v)

/-- `lua_setfield`: value at the top; pops it and performs `t[k] = v`
for a string key (raw; guarded by a table check in all uses below). -/
def lua_setfield (S : LuaState) (idx : Int) (k : String) : LuaState :=
  match valueAt S.stack idx, S.stack with
  | .table tid, v :: rest => { tblSet S tid (.str k) v with stack := rest }
  | _, _ => S

/-- Adjusts a result list to exactly `nres` values, padding with `nil`
as `lua_call` does. -/
def adjustResults (nres : Nat) (rs : List LValue) : List LValue :=
  rs.take nres ++ List.replicate (nres - rs.length) .nil

/-- `lua_call`: the function sits below its `nargs` arguments; pops
function and arguments and pushes exactly `nres` results.  The call
itself is interpreted by the host environment as a pure function. -/
def lua_call (env : LuaEnv) (S : LuaState) (nargs nres : Nat) : LuaState :=
  let f := (S.stack[nargs]?).getD .nil
  let res := env.callFn f ((S.stack.take nargs).reverse)
  { S with stack := (adjustResults nres res).reverse ++ S.stack.drop (nargs + 1) }

/-!
Transliterations of the inline helpers of `luaclasslib.h`.  Each
definition follows the C body line by line; the trailing integer of a
pair is the C return value.
-/

/-- `luaC_uvrawget` (luaclasslib.h): raw-gets `t[k]` where `t` is the
user value `uv` of the userdata at `idx` and `k` is the stack top. -/
def luaC_uvrawget (S : LuaState) (idx : Int) (uv : Nat) : LuaState × Int :=
  let p := lua_getiuservalue S idx uv
  if p.2 = LUA_TTABLE then
    let S1 := lua_insert p.1 (-2)
    let q := lua_rawget S1 (-2)
    (lua_remove q.1 (-2), q.2)
  else
    (lua_remove (lua_pushnil p.1) (-2), LUA_TNIL)

/-- `luaC_uvrawset` (luaclasslib.h): raw-sets `t[k] = v` where `t` is
the user value `uv`, `v` is the stack top and `k` sits below it. -/
def luaC_uvrawset (S : LuaState) (idx : Int) (uv : Nat) : LuaState × Int :=
  let p := lua_getiuservalue S idx uv
  if p.2 = LUA_TTABLE then
    let S1 := lua_insert p.1 (-3)
    (lua_rawset S1 (-3), 1)
  else
    (lua_pop p.1 3, 0)

/-- `luaC_uvrawgetp` (luaclasslib.h): raw-gets `t[p]` for a light
userdata key from the user value `uv`. -/
def luaC_uvrawgetp (S : LuaState) (idx : Int) (uv : Nat) (ptr : Nat) : LuaState × Int :=
  let p := lua_getiuservalue S idx uv
  if p.2 = LUA_TTABLE then
    let q := lua_rawgetp p.1 (-1) ptr
    (lua_remove q.1 (-2), q.2)
  else
    (lua_remove (lua_pushnil p.1) (-2), LUA_TNIL)

/-- `luaC_uvrawsetp` (luaclasslib.h): raw-sets `t[p] = v` for a light
userdata key into the user value `uv`, `v` being the stack top. -/
def luaC_uvrawsetp (S : LuaState) (idx : Int) (uv : Nat) (ptr : Nat) : LuaState × Int :=
  let p := lua_getiuservalue S idx uv
  if p.2 = LUA_TTABLE then
    let S1 := lua_insert p.1 (-2)
    (lua_rawsetp S1 (-2) ptr, 1)
  else
    (lua_pop p.1 2, 0)

/-- `luaC_uvget` (luaclasslib.h): like `luaC_uvrawget` but through
`lua_gettable`. -/
def luaC_uvget (S : LuaState) (idx : Int) (uv : Nat) : LuaState × Int :=
  let p := lua_getiuservalue S idx uv
  if p.2 = LUA_TTABLE then
    let S1 := lua_insert p.1 (-2)
    let q := lua_gettable S1 (-2)
    (lua_remove q.1 (-2), q.2)
  else
    (lua_remove (lua_pushnil p.1) (-2), LUA_TNIL)

/-- `luaC_uvset` (luaclasslib.h): like `luaC_uvrawset` but through
`lua_settable`. -/
def luaC_uvset (S : LuaState) (idx : Int) (uv : Nat) : LuaState × Int :=
  let p := lua_getiuservalue S idx uv
  if p.2 = LUA_TTABLE then
    let S1 := lua_insert p.1 (-3)
    (lua_settable S1 (-3), 1)
  else
    (lua_pop p.1 3, 0)

/-- `luaC_getuvfield` (luaclasslib.h): gets field `k` of the user value
`uv` of the userdata at `idx`. -/
def luaC_getuvfield (env : LuaEnv) (S : LuaState) (idx : Int) (uv : Nat) (k : String) :
    LuaState × Int :=
  let p := lua_getiuservalue S idx uv
  if p.2 = LUA_TTABLE then
    let q := lua_getfield env p.1 (-1) k
    (lua_remove q.1 (-2), q.2)
  else
    (lua_remove (lua_pushnil p.1) (-2), LUA_TNIL)

/-- `luaC_setuvfield` (luaclasslib.h): sets field `k` of the user value
`uv` to the stack-top value. -/
def luaC_setuvfield (S : LuaState) (idx : Int) (uv : Nat) (k : String) : LuaState × Int :=
  let p := lua_getiuservalue S idx uv
  if p.2 = LUA_TTABLE then
    let S1 := lua_insert p.1 (-2)
    let S2 := lua_setfield S1 (-2) k
    (lua_pop S2 1, 1)
  else
    (lua_pop p.1 2, 0)

/-- `luaC_mcall` (luaclasslib.h): calls `method` of the object sitting
below `nargs` arguments, passing the object as the first argument. -/
def luaC_mcall (env : LuaEnv) (S : LuaState) (method : String) (nargs nresults : Nat) :
    LuaState :=
  let p := lua_getfield env S (-(nargs : Int) - 1) method
  let S1 := lua_pushvalue p.1 (-(nargs : Int) - 2)
  let S2 := lua_rotate S1 (-(nargs : Int) - 2) 2
  lua_call env S2 (nargs + 1) nresults

/-!
Part 2: the class runtime.  The implementation translation unit of
`luaclasslib.h` is not in the repository snapshot (only the header
declarations and the test driver are), so the registry, construction,
dispatch, super-call and injection operations below are modelled from
the specification, as their doc comments state.  Parent-chain walks are
fuel-based; the registry-size bound `reg.length + 1` is shown adequate
under the spec's acyclic-parent invariant.
-/

/-- `luaC_Class` descriptor (luaclasslib.h): class name, optional
parent name, user-construction flag, optional allocator and destructor
capabilities (identified by numeric handles), and the method table
(method name to function handle). -/
structure ClassDesc where
  name : String
  parent : Option String
  user_ctor : Bool
  alloc : Option Nat
  gc : Option Nat
  methods : List (String × Nat)
deriving DecidableEq, Repr

/-- Modelled from the spec: the Class Registry, a table mapping class
name to descriptor (the implementation file holding the registry
operations is absent from the snapshot). -/
def Registry : Type := List (String × ClassDesc)

instance : DecidableEq Registry := by
  unfold Registry
  infer_instance

/-- Modelled from the spec: the parent-name chain of a class, walked by
following `parent` links through the registry; the fuel argument cuts
the walk, and `reg.length + 1` is enough fuel on acyclic chains. -/
def chainNames (reg : Registry) : String → Nat → List String
  | _, 0 => []
  | n, fuel + 1 =>
    match assoc reg n with
    | none => []
    | some d =>
      match d.parent with
      | none => [n]
      | some p => n :: chainNames reg p fuel

/-- Modelled from the spec: the descriptor chain of a class, from the
class itself up through `parent` links. -/
def chainDescs (reg : Registry) : String → Nat → List ClassDesc
  | _, 0 => []
  | n, fuel + 1 =>
    match assoc reg n with
    | none => []
    | some d =>
      match d.parent with
      | none => [d]
      | some p => d :: chainDescs reg p fuel

/-- Modelled from the spec: `luaC_registerclass` — inserts the
descriptor under its name if absent, after first registering its parent
(obtained from the descriptor-supplying environment `env`) when that
parent is not yet registered; returns `false` as a no-op when the name
is already registered. -/
def registerClass (env : String → Option ClassDesc) (reg : Registry) (d : ClassDesc) :
    Nat → Registry × Bool
  | 0 => (reg, false)
  | fuel + 1 =>
    match assoc reg d.name with
    | some _ => (reg, false)
    | none =>
      let reg' :=
        match d.parent with
        | none => reg
        | some p =>
          match assoc reg p with
          | some _ => reg
          | none =>
            match env p with
            | some pd => (registerClass env reg pd fuel).1
            | none => reg
      (reg' ++ [(d.name, d)], true)

/-- Modelled from the spec: the nearest ancestor (inclusive) of a class
that declares a native `alloc` capability. -/
def findAllocDesc (reg : Registry) : String → Nat → Option ClassDesc
  | _, 0 => none
  | n, fuel + 1 =>
    match assoc reg n with
    | none => none
    | some d =>
      if d.alloc.isSome then some d
      else
        match d.parent with
        | none => none
        | some p => findAllocDesc reg p fuel

/-- Modelled from the spec: an instance — a foreign-object handle with
an optional native payload (recorded as the allocator handle that
produced it), the destructor hook captured from the ancestor that
supplied the payload, the `__class` back-reference, and the attribute
table. -/
structure Inst where
  cls : String
  payload : Option Nat
  gcHook : Option Nat
  attrs : List (String × LValue)
deriving DecidableEq, Repr

/-- Modelled from the spec: steps 2 and 3 of the construction protocol —
allocate via the nearest ancestor with `alloc` (payload-less when no
ancestor declares one) and attach `__class` equal to the descriptor
resolved for the requested name itself. -/
def mkInstance (reg : Registry) (n : String) : Inst :=
  let ad := findAllocDesc reg n (reg.length + 1)
  { cls := n
    payload := ad.bind (fun d => d.alloc)
    gcHook := ad.bind (fun d => d.gc)
    attrs := [] }

/-- Modelled from the spec: `luaC_construct` without the initializer
step — resolves the name in the registry (`none` signals
ClassNotFound) and builds the instance. -/
def construct (reg : Registry) (n : String) : Option Inst :=
  match assoc reg n with
  | none => none
  | some _ => some (mkInstance reg n)

/-- Modelled from the spec: outcome of full construction including the
protected `__init` call. -/
inductive CResult where
  | ok (i : Inst)
  | initFailed (i : Inst) (err : String)
  | classNotFound
deriving DecidableEq, Repr

/-- Modelled from the spec: full construction — allocation followed by
the protected `__init` chain; `initBeh` abstracts the host-run
initializer, returning `some e` when `__init` raises error `e`.  On
initializer failure the already-built instance is kept in the result. -/
def constructFull (reg : Registry) (initBeh : String → Option String) (n : String) :
    CResult :=
  match assoc reg n with
  | none => .classNotFound
  | some _ =>
    let i := mkInstance reg n
    match initBeh n with
    | none => .ok i
    | some e => .initFailed i e

/-- Modelled from the spec: error taxonomy of the construction and
validation protocol. -/
inductive CError where
  | classNotFound
  | constructionForbidden
deriving DecidableEq, Repr

/-- Modelled from the spec: direct end-user construction (calling the
class object): forbidden when the descriptor's `user_ctor` flag is
false. -/
def userConstruct (reg : Registry) (initBeh : String → Option String) (n : String) :
    Except CError CResult :=
  match assoc reg n with
  | none => .error .classNotFound
  | some d =>
    if d.user_ctor = false then .error .constructionForbidden
    else .ok (constructFull reg initBeh n)

/-- Modelled from the spec: finalization on collection — fires the
destructor hook on the native payload exactly once when both are
present; payload-less instances run no destructor. -/
def finalize (i : Inst) : List (Nat × Nat) :=
  match i.gcHook, i.payload with
  | some g, some p => [(g, p)]
  | _, _ => []

/-- `luaC_newclass` (luaclasslib.h): the descriptor built by the
helper — name, parent and methods from the arguments, `user_ctor`
always set, allocator and destructor always absent. -/
def luaC_newclass (name : String) (parent : Option String)
    (methods : List (String × Nat)) : ClassDesc :=
  { name := name
    parent := parent
    user_ctor := true
    alloc := none
    gc := none
    methods := methods }

/-- Modelled from the spec: method resolution — the nearest class in
the parent chain that defines the method wins. -/
def resolveMethod (reg : Registry) : String → String → Nat → Option Nat
  | _, _, 0 => none
  | n, m, fuel + 1 =>
    match assoc reg n with
    | none => none
    | some d =>
      match assoc d.methods m with
      | some f => some f
      | none =>
        match d.parent with
        | none => none
        | some p => resolveMethod reg p m fuel

/-- Modelled from the spec: the execution context of a running method —
the receiver instance and the class that lexically defines the method
being executed. -/
structure ExecCtx where
  self : Inst
  definingClass : String
deriving DecidableEq, Repr

/-- Modelled from the spec: `luaC_super` resolution — starts one level
above the class that defines the currently executing method, never at
the receiver's dynamic class. -/
def superResolve (reg : Registry) (ctx : ExecCtx) (m : String) : Option Nat :=
  match assoc reg ctx.definingClass with
  | none => none
  | some d =>
    match d.parent with
    | none => none
    | some p => resolveMethod reg p m (reg.length + 1)

/-- Modelled from the spec: invoking `luaC_super` — calls the resolved
parent method (interpreted by the pure oracle `callBeh`), and fails
silently with no results when no ancestor defines the method. -/
def superInvoke (reg : Registry) (ctx : ExecCtx) (m : String)
    (callBeh : Nat → List LValue) : Except CError (List LValue) :=
  match superResolve reg ctx m with
  | some f => .ok (callBeh f)
  | none => .ok []

/-- Modelled from the spec: walking exactly `depth` parent links up
from a class name; `none` when the walk runs past the chain. -/
def walkUp (reg : Registry) : String → Nat → Option String
  | n, 0 => some n
  | n, depth + 1 =>
    match assoc reg n with
    | none => none
    | some d =>
      match d.parent with
      | none => none
      | some p => walkUp reg p depth

/-- Modelled from the spec: `luaC_getparentfield` — raw-gets a field on
the method table found exactly `depth` parents up; yields `none`
(pushes nil) on depth overflow instead of failing. -/
def getParentField (reg : Registry) (n : String) (depth : Nat) (fname : String) :
    Option Nat :=
  match walkUp reg n depth with
  | none => none
  | some m =>
    match assoc reg m with
    | none => none
    | some d => assoc d.methods fname

/-- Modelled from the spec: a method slot after zero or more
injections — either a plain function or a closure of the injected
function with the displaced method as its upvalue (absent when the
method did not previously exist). -/
inductive Method where
  | base (f : Nat)
  | injected0 (f : Nat)
  | injected (f : Nat) (prev : Method)
deriving DecidableEq, Repr

/-- The function run when the method slot is invoked (the top layer). -/
def Method.top : Method → Nat
  | .base f => f
  | .injected0 f => f
  | .injected f _ => f

/-- Modelled from the spec: the layer a `defer` call from inside this
slot's top function reaches — exactly the method this injection
displaced (`none` when the injection found no previous method). -/
def Method.deferred : Method → Option Method
  | .base _ => none
  | .injected0 _ => none
  | .injected _ prev => some prev

/-- A class object's runtime method table, holding layered slots. -/
def MTable : Type := List (String × Method)

instance : DecidableEq MTable := by
  unfold MTable
  infer_instance

/-- Modelled from the spec: `luaC_injectmethod` — replaces the slot for
`m` with a closure of `f` whose upvalue is the previous slot content
(absent when the method did not exist). -/
def injectMethod (t : MTable) (m : String) (f : Nat) : MTable :=
  match assoc t m with
  | some old => setAssoc t m (.injected f old)
  | none => setAssoc t m (.injected0 f)

/-- The stack of function layers of a slot, top first: the functions a
chain of `defer` calls reaches, in order. -/
def Method.layers : Method → List Nat
  | .base f => [f]
  | .injected0 f => [f]
  | .injected f prev => f :: prev.layers

/-- Modelled from the spec: runtime values of the type-query layer —
an instance object or any other value. -/
inductive SValue where
  | obj (i : Inst)
  | other
deriving DecidableEq, Repr

/-- Modelled from the spec: `luaC_isobject` — the value is a
foreign-object handle whose `__class` resolves in the registry. -/
def isObject (reg : Registry) : SValue → Bool
  | .obj i => (assoc reg i.cls).isSome
  | .other => false

/-- Modelled from the spec: `luaC_isinstance` — the value is an object
and the class name occurs in its class's parent chain. -/
def isInstance (reg : Registry) (v : SValue) (n : String) : Bool :=
  match v with
  | .obj i => (chainNames reg i.cls (reg.length + 1)).contains n
  | .other => false

/-- The ancestor relation by the spec's words: a class reaches a name
through zero or more registered `parent` links. -/
inductive IsAncestor (reg : Registry) : String → String → Prop
  | self (n : String) (d : ClassDesc) : assoc reg n = some d → IsAncestor reg n n
  | step (n p m : String) (d : ClassDesc) : assoc reg n = some d → d.parent = some p →
      IsAncestor reg p m → IsAncestor reg n m

/-!
Helper lemmas: list bookkeeping for the stack proofs, and parent-chain
lemmas showing the fuelled walks are stable once the fuel exceeds the
chain length (the shallow form of termination on acyclic hierarchies).
-/

theorem list_get_append_len {α : Type} (l t : List α) (x : α) :
    (l ++ x :: t)[l.length]? = some x := by
  induction l with
  | nil => simp
  | cons a l ih => simpa using ih

theorem list_take_append_len {α : Type} (l t : List α) :
    (l ++ t).take l.length = l := by
  induction l with
  | nil => rfl
  | cons a l ih => simp [ih]

theorem list_drop_append_len {α : Type} (l t : List α) :
    (l ++ t).drop l.length = t := by
  induction l with
  | nil => rfl
  | cons a l ih => simp [ih]

theorem list_drop_append_len_succ {α : Type} (l t : List α) (x : α) :
    (l ++ x :: t).drop (l.length + 1) = t := by
  induction l with
  | nil => rfl
  | cons a l ih => simp [ih]

theorem assoc_append_isSome {α β : Type} [DecidableEq α]
    (l : List (α × β)) (k : α) (v : β) :
    (assoc (l ++ [(k, v)]) k).isSome = true := by
  induction l with
  | nil => simp [assoc]
  | cons hd t ih =>
    obtain ⟨a, b⟩ := hd
    by_cases h : a = k
    · simp [assoc, h]
    · simp [assoc, h, ih]

theorem assoc_isSome_mem_keys {α β : Type} [DecidableEq α]
    (l : List (α × β)) (k : α) (h : (assoc l k).isSome = true) :
    k ∈ l.map Prod.fst := by
  induction l with
  | nil => simp [assoc] at h
  | cons hd t ih =>
    obtain ⟨a, b⟩ := hd
    by_cases hak : a = k
    · simp [hak]
    · simp [assoc, hak] at h
      simp [ih h]

theorem chainNames_subset_mono (reg : Registry) :
    ∀ fuel fuel' n, fuel ≤ fuel' →
      chainNames reg n fuel ⊆ chainNames reg n fuel' := by
  intro fuel
  induction fuel with
  | zero => intro fuel' n _; simp [chainNames]
  | succ fuel ih =>
    intro fuel' n hle
    obtain ⟨f', rfl⟩ : ∃ f', fuel' = f' + 1 := ⟨fuel' - 1, by omega⟩
    show chainNames reg n (fuel + 1) ⊆ chainNames reg n (f' + 1)
    unfold chainNames
    cases hd : assoc reg n with
    | none => simp [hd]
    | some d =>
      cases hp : d.parent with
      | none => simp [hd, hp]
      | some p =>
        simp only [hd, hp]
        exact List.cons_subset_cons n (ih f' p (by omega))

theorem chainNames_length_mono (reg : Registry) :
    ∀ fuel fuel' n, fuel ≤ fuel' →
      (chainNames reg n fuel).length ≤ (chainNames reg n fuel').length := by
  intro fuel
  induction fuel with
  | zero => intro fuel' n _; simp [chainNames]
  | succ fuel ih =>
    intro fuel' n hle
    obtain ⟨f', rfl⟩ : ∃ f', fuel' = f' + 1 := ⟨fuel' - 1, by omega⟩
    show (chainNames reg n (fuel + 1)).length ≤ (chainNames reg n (f' + 1)).length
    unfold chainNames
    cases hd : assoc reg n with
    | none => simp [hd]
    | some d =>
      cases hp : d.parent with
      | none => simp [hd, hp]
      | some p =>
        simp only [hd, hp, List.length_cons]
        exact Nat.succ_le_succ (ih f' p (by omega))

theorem chainNames_stable (reg : Registry) :
    ∀ fuel n k, (chainNames reg n fuel).length < fuel →
      chainNames reg n (fuel + k) = chainNames reg n fuel := by
  intro fuel
  induction fuel with
  | zero => intro n k h; exact absurd h (by omega)
  | succ fuel ih =>
    intro n k h
    have hk : fuel + 1 + k = (fuel + k) + 1 := by omega
    rw [hk]
    unfold chainNames at h ⊢
    cases hd : assoc reg n with
    | none => simp [hd]
    | some d =>
      cases hp : d.parent with
      | none => simp [hd, hp]
      | some p =>
        simp only [hd, hp, List.length_cons] at h ⊢
        rw [ih p k (by omega)]

theorem chainNames_mem_registered (reg : Registry) :
    ∀ fuel n m, m ∈ chainNames reg n fuel → (assoc reg m).isSome = true := by
  intro fuel
  induction fuel with
  | zero => intro n m h; simp [chainNames] at h
  | succ fuel ih =>
    intro n m h
    unfold chainNames at h
    cases hd : assoc reg n with
    | none => simp [hd] at h
    | some d =>
      cases hp : d.parent with
      | none =>
        simp [hd, hp] at h
        simp [h, hd]
      | some p =>
        simp only [hd, hp, List.mem_cons] at h
        rcases h with h | h
        · simp [h, hd]
        · exact ih p m h

theorem chainNames_nodup_length (reg : Registry) (n : String)
    (h : (chainNames reg n (reg.length + 1)).Nodup) :
    (chainNames reg n (reg.length + 1)).length ≤ reg.length := by
  have hsub : chainNames reg n (reg.length + 1) ⊆ reg.map Prod.fst := by
    intro m hm
    exact assoc_isSome_mem_keys reg m (chainNames_mem_registered reg _ n m hm)
  have := (List.subperm_of_subset h hsub).length_le
  simpa using this

theorem mem_chain_isAncestor (reg : Registry) :
    ∀ fuel n m, m ∈ chainNames reg n fuel → IsAncestor reg n m := by
  intro fuel
  induction fuel with
  | zero => intro n m h; simp [chainNames] at h
  | succ fuel ih =>
    intro n m h
    unfold chainNames at h
    cases hd : assoc reg n with
    | none => simp [hd] at h
    | some d =>
      cases hp : d.parent with
      | none =>
        simp [hd, hp] at h
        exact h ▸ IsAncestor.self n d hd
      | some p =>
        simp only [hd, hp, List.mem_cons] at h
        rcases h with h | h
        · exact h ▸ IsAncestor.self n d hd
        · exact IsAncestor.step n p m d hd hp (ih p m h)

theorem isAncestor_mem_chain (reg : Registry) (n m : String)
    (h : IsAncestor reg n m) : ∃ fuel, m ∈ chainNames reg n fuel := by
  induction h with
  | self a d hd =>
    refine ⟨1, ?_⟩
    unfold chainNames
    cases hp : d.parent <;> simp [hd, hp, chainNames]
  | step a p b d hd hp _ ih =>
    obtain ⟨fuel, hm⟩ := ih
    refine ⟨fuel + 1, ?_⟩
    unfold chainNames
    simp [hd, hp, hm]

theorem isAncestor_mem_chain_bound (reg : Registry) (n m : String)
    (hnd : (chainNames reg n (reg.length + 1)).Nodup)
    (h : IsAncestor reg n m) : m ∈ chainNames reg n (reg.length + 1) := by
  obtain ⟨fuel, hm⟩ := isAncestor_mem_chain reg n m h
  rcases le_or_lt fuel (reg.length + 1) with hle | hlt
  · exact chainNames_subset_mono reg fuel (reg.length + 1) n hle hm
  · have hlen : (chainNames reg n (reg.length + 1)).length < reg.length + 1 := by
      have := chainNames_nodup_length reg n hnd
      omega
    have hst := chainNames_stable reg (reg.length + 1) n (fuel - (reg.length + 1)) hlen
    have hf : reg.length + 1 + (fuel - (reg.length + 1)) = fuel := by omega
    rw [hf] at hst
    exact hst ▸ hm

theorem stackIdx_negOne (st : List LValue) (n : Nat) :
    stackIdx st (-(n : Int) - 1) = n := by
  unfold stackIdx
  rw [if_pos (by omega)]
  omega

theorem stackIdx_negTwo (st : List LValue) (n : Nat) :
    stackIdx st (-(n : Int) - 2) = n + 1 := by
  unfold stackIdx
  rw [if_pos (by omega)]
  omega

theorem rotate_width (n : Nat) : (-(-(n : Int) - 2)).toNat = n + 2 := by
  omega

/-- The stack discipline of `luaC_mcall`, proved from the header's
inline body: with the object below `nargs` arguments, the method is
fetched from the object, a copy of the object is prepended to the
arguments, and the call consumes method, copy and arguments, pushing
the adjusted results — the original object stays on the stack beneath
the results. -/
theorem luaC_mcall_stack (env : LuaEnv) (S : LuaState) (args rest : List LValue)
    (u : Nat) (method : String) (nres : Nat)
    (hS : S.stack = args ++ .userdata u :: rest) :
    luaC_mcall env S method args.length nres =
      { S with stack :=
          (adjustResults nres
            (env.callFn (env.getfieldFn (.userdata u) method)
              (.userdata u :: args.reverse))).reverse ++ .userdata u :: rest } := by
  have hget : valueAt S.stack (-(args.length : Int) - 1) = .userdata u := by
    rw [valueAt, stackIdx_negOne, hS, list_get_append_len]
    rfl
  unfold luaC_mcall
  rw [lua_getfield]
  rw [hget]
  simp only []
  set mv := env.getfieldFn (.userdata u) method with hmv
  rw [lua_pushvalue]
  have hst1 : mv :: S.stack = (mv :: args) ++ .userdata u :: rest := by
    rw [hS]; rfl
  have hget2 : valueAt (mv :: S.stack) (-(args.length : Int) - 2) = .userdata u := by
    rw [valueAt, stackIdx_negTwo, hst1]
    have : args.length + 1 = (mv :: args).length := rfl
    rw [this, list_get_append_len]
    rfl
  rw [hget2]
  rw [lua_rotate]
  simp only [rotate_width]
  have hst2 : LValue.userdata u :: mv :: S.stack
      = (LValue.userdata u :: mv :: args) ++ .userdata u :: rest := by
    rw [hS]; rfl
  have hlen2 : args.length + 2 = (LValue.userdata u :: mv :: args).length := by
    simp
  have htake : (LValue.userdata u :: mv :: S.stack).take (args.length + 2)
      = LValue.userdata u :: mv :: args := by
    rw [hst2, hlen2]
    exact list_take_append_len _ _
  have hdrop : (LValue.userdata u :: mv :: S.stack).drop (args.length + 2)
      = LValue.userdata u :: rest := by
    rw [hst2, hlen2]
    exact list_drop_append_len _ _
  rw [htake, hdrop]
  rw [lua_call]
  simp only []
  have hst3 : (LValue.userdata u :: mv :: args).drop 2
        ++ (LValue.userdata u :: mv :: args).take 2 ++ LValue.userdata u :: rest
      = (args ++ [LValue.userdata u]) ++ mv :: LValue.userdata u :: rest := by
    simp
  rw [hst3]
  have hlen3 : args.length + 1 = (args ++ [LValue.userdata u]).length := by simp
  have hfn : ((args ++ [LValue.userdata u]) ++ mv :: LValue.userdata u :: rest)[args.length + 1]?
      = some mv := by
    rw [hlen3, list_get_append_len]
  have htake3 : ((args ++ [LValue.userdata u]) ++ mv :: LValue.userdata u :: rest).take
        (args.length + 1) = args ++ [LValue.userdata u] := by
    rw [hlen3]
    exact list_take_append_len _ _
  have hdrop3 : ((args ++ [LValue.userdata u]) ++ mv :: LValue.userdata u :: rest).drop
        (args.length + 1 + 1) = LValue.userdata u :: rest := by
    rw [hlen3]
    exact list_drop_append_len_succ _ _ _
  rw [hfn, htake3, hdrop3]
  simp

/-- C10 (amended): on a userdata index whose user-value slot holds a
non-table value, every get-style helper (`luaC_uvrawget`,
`luaC_uvget`, `luaC_uvrawgetp`, `luaC_getuvfield`) pushes nil on top of
the existing stack and returns `LUA_TNIL` — so for `luaC_uvrawget` and
`luaC_uvget` the key operand stays on the stack beneath the pushed nil
instead of being replaced — and every set-style helper
(`luaC_uvrawset`, `luaC_uvset`, `luaC_uvrawsetp`, `luaC_setuvfield`)
pops exactly its key/value operands and returns `0`; in all eight
cases the stack below the operands and the whole heap are left
unchanged. -/
theorem c10_uv_helpers_nontable (S : LuaState) (env : LuaEnv) (idx : Int)
    (uv u : Nat) (w : LValue)
    (h1 : valueAt S.stack idx = .userdata u)
    (h2 : assoc S.uvals (u, uv) = some w)
    (h3 : ltype w ≠ LUA_TTABLE) :
    luaC_uvrawget S idx uv = ({ S with stack := .nil :: S.stack }, LUA_TNIL)
    ∧ luaC_uvget S idx uv = ({ S with stack := .nil :: S.stack }, LUA_TNIL)
    ∧ (∀ p, luaC_uvrawgetp S idx uv p = ({ S with stack := .nil :: S.stack }, LUA_TNIL))
    ∧ (∀ k, luaC_getuvfield env S idx uv k = ({ S with stack := .nil :: S.stack }, LUA_TNIL))
    ∧ (∀ v kv rest, S.stack = v :: kv :: rest →
        luaC_uvrawset S idx uv = ({ S with stack := rest }, 0))
    ∧ (∀ v kv rest, S.stack = v :: kv :: rest →
        luaC_uvset S idx uv = ({ S with stack := rest }, 0))
    ∧ (∀ v rest p, S.stack = v :: rest →
        luaC_uvrawsetp S idx uv p = ({ S with stack := rest }, 0))
    ∧ (∀ v rest k, S.stack = v :: rest →
        luaC_setuvfield S idx uv k = ({ S with stack := rest }, 0)) := by
  have hgi : lua_getiuservalue S idx uv = ({ S with stack := w :: S.stack }, ltype w) := by
    rw [lua_getiuservalue, h1]
    simp only [h2]
  refine ⟨?_, ?_, ?_, ?_, ?_, ?_, ?_, ?_⟩
  · rw [luaC_uvrawget, hgi]
    simp [h3, lua_pushnil, lua_remove, stackIdx, List.eraseIdx]
  · rw [luaC_uvget, hgi]
    simp [h3, lua_pushnil, lua_remove, stackIdx, List.eraseIdx]
  · intro p
    rw [luaC_uvrawgetp, hgi]
    simp [h3, lua_pushnil, lua_remove, stackIdx, List.eraseIdx]
  · intro k
    rw [luaC_getuvfield, hgi]
    simp [h3, lua_pushnil, lua_remove, stackIdx, List.eraseIdx]
  · intro v kv rest hstack
    rw [luaC_uvrawset, hgi]
    simp [h3, lua_pop, hstack]
  · intro v kv rest hstack
    rw [luaC_uvset, hgi]
    simp [h3, lua_pop, hstack]
  · intro v rest p hstack
    rw [luaC_uvrawsetp, hgi]
    simp [h3, lua_pop, hstack]
  · intro v rest k hstack
    rw [luaC_setuvfield, hgi]
    simp [h3, lua_pop, hstack]

/-- C10 counterexample: with the key on the stack and a non-table user
value, `luaC_uvrawget` leaves the key beneath the pushed nil (the key
is not replaced by the result), and with a table user value
`luaC_uvrawset` leaves the user-value table on the stack after the
assignment — so the helpers do not have the fixed net stack effect the
claim states. -/
theorem c10_counterexample :
    (luaC_uvrawget ⟨[.str "kk", .userdata 0], [], [((0, 1), .number 5)]⟩ 1 1).1.stack
        = [.nil, .str "kk", .userdata 0]
    ∧ (luaC_uvrawget ⟨[.str "kk", .userdata 0], [], [((0, 1), .number 5)]⟩ 1 1).1.stack
        ≠ [.nil, .userdata 0]
    ∧ (luaC_uvrawset ⟨[.number 7, .str "kk", .userdata 0], [(3, [])],
          [((0, 1), .table 3)]⟩ 1 1).1.stack
        = [.table 3, .userdata 0]
    ∧ (luaC_uvrawset ⟨[.number 7, .str "kk", .userdata 0], [(3, [])],
          [((0, 1), .table 3)]⟩ 1 1).1.stack
        ≠ [.userdata 0] := by
  decide

/-- C10 witness: the amended theorem applied at a concrete state with a
numeric user value. -/
theorem c10_witness :
    valueAt [.number 9, .str "kk", .userdata 0] 1 = .userdata 0
    ∧ assoc ([((0, 1), LValue.number 5)] : List ((Nat × Nat) × LValue)) (0, 1)
        = some (.number 5)
    ∧ ltype (.number 5) ≠ LUA_TTABLE
    ∧ luaC_uvrawget ⟨[.number 9, .str "kk", .userdata 0], [], [((0, 1), .number 5)]⟩ 1 1
        = (⟨[.nil, .number 9, .str "kk", .userdata 0], [], [((0, 1), .number 5)]⟩, LUA_TNIL)
    ∧ luaC_uvrawset ⟨[.number 9, .str "kk", .userdata 0], [], [((0, 1), .number 5)]⟩ 1 1
        = (⟨[.userdata 0], [], [((0, 1), .number 5)]⟩, 0) :=
  ⟨by decide, by decide, by decide,
    (c10_uv_helpers_nontable ⟨[.number 9, .str "kk", .userdata 0], [], [((0, 1), .number 5)]⟩
      ⟨fun _ _ => .nil, fun _ _ => []⟩ 1 1 0 (.number 5)
      (by decide) (by decide) (by decide)).1,
    (c10_uv_helpers_nontable ⟨[.number 9, .str "kk", .userdata 0], [], [((0, 1), .number 5)]⟩
      ⟨fun _ _ => .nil, fun _ _ => []⟩ 1 1 0 (.number 5)
      (by decide) (by decide) (by decide)).2.2.2.2.1 (.number 9) (.str "kk")
      [.userdata 0] rfl⟩

/-- Modelled from the spec: the host metatable machinery on instance
values — indexing an instance with a method name resolves through its
class's method table and parent chain (nearest-defined wins);
`instCls` gives the class name of each userdata identity. -/
def instGetfield (reg : Registry) (instCls : Nat → Option String) :
    LValue → String → LValue
  | .userdata u, k =>
    match instCls u with
    | some c =>
      match resolveMethod reg c k (reg.length + 1) with
      | some f => .fn f
      | none => .nil
    | none => .nil
  | _, _ => .nil

/-- C8 (amended): `luaC_mcall` resolves the method through the
instance's class chain (nearest-defined wins), invokes the resolved
function with a copy of the instance prepended to the original
arguments, and consumes method and arguments, pushing the adjusted
results — the instance itself remains on the stack beneath the
results rather than being replaced by them. -/
theorem c8_mcall_amended (reg : Registry) (instCls : Nat → Option String)
    (callFn : LValue → List LValue → List LValue)
    (tbls : List (Nat × List (LValue × LValue)))
    (uvs : List ((Nat × Nat) × LValue))
    (u : Nat) (c : String) (args rest : List LValue) (method : String) (nres : Nat)
    (hc : instCls u = some c) :
    luaC_mcall ⟨instGetfield reg instCls, callFn⟩
        ⟨args ++ .userdata u :: rest, tbls, uvs⟩ method args.length nres
      = ⟨(adjustResults nres (callFn
            (match resolveMethod reg c method (reg.length + 1) with
             | some f => LValue.fn f
             | none => LValue.nil)
            (.userdata u :: args.reverse))).reverse ++ .userdata u :: rest,
          tbls, uvs⟩ := by
  have h := luaC_mcall_stack ⟨instGetfield reg instCls, callFn⟩
      ⟨args ++ .userdata u :: rest, tbls, uvs⟩ args rest u method nres rfl
  rw [h]
  simp only [instGetfield, hc]

/-- Concrete one-class registry used to exercise `luaC_mcall`. -/
def demoRegA : Registry :=
  [(("A"), { name := ("A"), parent := none, user_ctor := true, alloc := none, gc := none, methods := [(("foo"), 7)] })]

/-- Concrete host environment over `demoRegA`: every userdata is an
instance of class `A`, and every call returns `21`. -/
def demoEnvA : LuaEnv :=
  { getfieldFn := instGetfield demoRegA (fun _ => some ("A"))
    callFn := fun _ _ => [.number 21] }

/-- C8 counterexample: after a concrete `luaC_mcall` the original
instance is still on the stack beneath the result, so the claim that
the instance and the arguments are replaced by the results is false. -/
theorem c8_counterexample :
    (luaC_mcall demoEnvA ⟨[.number 3, .userdata 0], [], []⟩ ("foo") 1 1).stack
        = [.number 21, .userdata 0]
    ∧ (luaC_mcall demoEnvA ⟨[.number 3, .userdata 0], [], []⟩ ("foo") 1 1).stack
        ≠ [.number 21] := by
  decide

/-- C8 witness: the amended theorem applied at a concrete registry,
instance and argument list. -/
theorem c8_witness :
    (fun _ : Nat => some ("A")) 0 = some ("A")
    ∧ luaC_mcall demoEnvA ⟨[.number 3, .userdata 0], [], []⟩ ("foo") 1 1
        = ⟨[.number 21, .userdata 0], [], []⟩ :=
  ⟨rfl,
    (c8_mcall_amended demoRegA (fun _ => some ("A")) (fun _ _ => [.number 21])
        [] [] 0 ("A") [.number 3] [] ("foo") 1 rfl).trans (by decide)⟩

/-- C9: every descriptor built by `luaC_newclass` has `user_ctor` set
and carries no allocator and no destructor, whatever the arguments;
consequently direct end-user construction of such a class can never
fail with ConstructionForbidden. -/
theorem c9_newclass_fields (name : String) (parent : Option String)
    (methods : List (String × Nat)) :
    (luaC_newclass name parent methods).user_ctor = true
    ∧ (luaC_newclass name parent methods).alloc = none
    ∧ (luaC_newclass name parent methods).gc = none
    ∧ (∀ reg initBeh, assoc reg name = some (luaC_newclass name parent methods) →
        userConstruct reg initBeh name ≠ .error .constructionForbidden) := by
  refine ⟨rfl, rfl, rfl, ?_⟩
  intro reg initBeh h
  rw [userConstruct, h]
  simp [luaC_newclass]

/-- C9 witness: the theorem applied to a concrete registry holding a
class built by `luaC_newclass`. -/
theorem c9_witness :
    assoc ([(("N"), luaC_newclass ("N") none [])] : Registry) ("N")
        = some (luaC_newclass ("N") none [])
    ∧ (luaC_newclass ("N") none []).user_ctor = true
    ∧ userConstruct ([(("N"), luaC_newclass ("N") none [])] : Registry)
        (fun _ => none) ("N") ≠ .error .constructionForbidden :=
  ⟨by decide, (c9_newclass_fields ("N") none []).1,
    (c9_newclass_fields ("N") none []).2.2.2
      ([(("N"), luaC_newclass ("N") none [])] : Registry) (fun _ => none) (by decide)⟩

/-- C1: injecting `f1` then `f2` onto a method `m` whose original slot
is `om` yields the layered slot `injected f2 (injected f1 om)`:
invoking `m` runs `f2`; `defer` inside `f2` reaches exactly the `f1`
layer; `defer` inside `f1` reaches exactly the original method `om`;
and the layer stack is `f2 :: f1 :: om.layers`, so no injection layer
is ever skipped. -/
theorem c1_inject_stack_discipline (t : MTable) (m : String) (om : Method)
    (f1 f2 : Nat) (h : assoc t m = some om) :
    assoc (injectMethod (injectMethod t m f1) m f2) m
        = some (.injected f2 (.injected f1 om))
    ∧ (Method.injected f2 (.injected f1 om)).top = f2
    ∧ (Method.injected f2 (.injected f1 om)).deferred = some (.injected f1 om)
    ∧ (Method.injected f1 om).top = f1
    ∧ (Method.injected f1 om).deferred = some om
    ∧ (Method.injected f2 (.injected f1 om)).layers = f2 :: f1 :: om.layers := by
  have h1 : injectMethod t m f1 = setAssoc t m (.injected f1 om) := by
    rw [injectMethod, h]
  have h2 : assoc (injectMethod t m f1) m = some (.injected f1 om) := by
    rw [h1]
    exact assoc_setAssoc_self t m _
  refine ⟨?_, rfl, rfl, rfl, rfl, rfl⟩
  rw [injectMethod, h2]
  exact assoc_setAssoc_self _ m _

/-- C1 witness: the theorem applied to a one-method table. -/
theorem c1_witness :
    assoc ([(("m"), Method.base 0)] : MTable) ("m") = some (.base 0)
    ∧ assoc (injectMethod (injectMethod ([(("m"), Method.base 0)] : MTable) ("m") 1) ("m") 2) ("m")
        = some (.injected 2 (.injected 1 (.base 0)))
    ∧ (Method.injected 2 (.injected 1 (.base 0))).layers = [2, 1, 0] :=
  ⟨by decide,
    (c1_inject_stack_discipline ([(("m"), Method.base 0)] : MTable) ("m")
      (.base 0) 1 2 (by decide)).1,
    ((c1_inject_stack_discipline ([(("m"), Method.base 0)] : MTable) ("m")
      (.base 0) 1 2 (by decide)).2.2.2.2.2).trans (by decide)⟩

/-- C2: `registerClass` is idempotent — when the descriptor's name is
already registered the call is a no-op on the registry and returns
`false` (not an error), and after any call the name is registered, so
a repeated call with the same descriptor is always such a no-op. -/
theorem c2_registerclass_idempotent :
    (∀ env reg d fuel, (assoc reg d.name).isSome = true →
        registerClass env reg d (fuel + 1) = (reg, false))
    ∧ (∀ env reg d fuel,
        (assoc ((registerClass env reg d (fuel + 1)).1) d.name).isSome = true)
    ∧ (∀ env reg d fuel fuel',
        registerClass env ((registerClass env reg d (fuel + 1)).1) d (fuel' + 1)
          = ((registerClass env reg d (fuel + 1)).1, false)) := by
  have hpresent : ∀ (env : String → Option ClassDesc) (reg : Registry) (d : ClassDesc)
      (fuel : Nat), (assoc reg d.name).isSome = true →
        registerClass env reg d (fuel + 1) = (reg, false) := by
    intro env reg d fuel h
    rw [registerClass]
    cases hd : assoc reg d.name with
    | none => rw [hd] at h; simp at h
    | some x => rfl
  have hreg : ∀ (env : String → Option ClassDesc) (reg : Registry) (d : ClassDesc)
      (fuel : Nat), (assoc ((registerClass env reg d (fuel + 1)).1) d.name).isSome = true := by
    intro env reg d fuel
    rw [registerClass]
    cases hd : assoc reg d.name with
    | none => simpa using assoc_append_isSome _ d.name d
    | some x => simpa using congrArg Option.isSome hd
  exact ⟨hpresent, hreg, fun env reg d fuel fuel' =>
    hpresent env _ d fuel' (hreg env reg d fuel)⟩

/-- C2 witness: registering a concrete descriptor twice — the second
call returns `false` and leaves the registry unchanged. -/
theorem c2_witness :
    (assoc ((registerClass (fun _ => none) ([] : Registry)
        (luaC_newclass ("B") none []) 1).1) ("B")).isSome = true
    ∧ registerClass (fun _ => none)
        ((registerClass (fun _ => none) ([] : Registry) (luaC_newclass ("B") none []) 1).1)
        (luaC_newclass ("B") none []) 1
      = ((registerClass (fun _ => none) ([] : Registry) (luaC_newclass ("B") none []) 1).1,
          false) :=
  ⟨c2_registerclass_idempotent.2.1 (fun _ => none) ([] : Registry)
      (luaC_newclass ("B") none []) 0,
    c2_registerclass_idempotent.1 (fun _ => none)
      ((registerClass (fun _ => none) ([] : Registry) (luaC_newclass ("B") none []) 1).1)
      (luaC_newclass ("B") none []) 0
      (c2_registerclass_idempotent.2.1 (fun _ => none) ([] : Registry)
        (luaC_newclass ("B") none []) 0)⟩

theorem findAllocDesc_eq_find (reg : Registry) :
    ∀ fuel n, findAllocDesc reg n fuel
      = (chainDescs reg n fuel).find? (fun d => d.alloc.isSome) := by
  intro fuel
  induction fuel with
  | zero => intro n; simp [findAllocDesc, chainDescs]
  | succ fuel ih =>
    intro n
    unfold findAllocDesc chainDescs
    cases hd : assoc reg n with
    | none => simp
    | some d =>
      cases hp : d.parent with
      | none =>
        by_cases ha : d.alloc.isSome = true
        · simp [hp, List.find?, ha]
        · simp [hp, List.find?, ha]
      | some p =>
        by_cases ha : d.alloc.isSome = true
        · simp [hp, List.find?, ha]
        · simp only [hp, List.find?, ha, if_neg]
          simpa [List.find?, ha] using ih p

/-- C3: for a registered class, `construct` builds the instance whose
payload comes from the `alloc` capability of the nearest ancestor
(inclusive, walking `parent` links) that declares one — in particular,
the class's own allocator when it has one — is payload-less when no
ancestor declares `alloc`, and in every case attaches `__class` equal
to the name resolved for the requested class itself, not the ancestor
that supplied the allocator. -/
theorem c3_construct_alloc (reg : Registry) (n : String) (d : ClassDesc)
    (h : assoc reg n = some d) :
    construct reg n = some (mkInstance reg n)
    ∧ (mkInstance reg n).cls = n
    ∧ (mkInstance reg n).payload
        = ((chainDescs reg n (reg.length + 1)).find?
            (fun c => c.alloc.isSome)).bind (fun c => c.alloc)
    ∧ (∀ a, d.alloc = some a → (mkInstance reg n).payload = some a)
    ∧ ((chainDescs reg n (reg.length + 1)).find? (fun c => c.alloc.isSome) = none →
        (mkInstance reg n).payload = none) := by
  have hfind := findAllocDesc_eq_find reg (reg.length + 1) n
  refine ⟨?_, rfl, ?_, ?_, ?_⟩
  · rw [construct, h]
  · rw [mkInstance]
    rw [hfind]
  · intro a ha
    have : findAllocDesc reg n (reg.length + 1) = some d := by
      rw [findAllocDesc, h]
      simp [ha]
    rw [mkInstance, this]
    simpa using ha
  · intro hnone
    rw [mkInstance, hfind, hnone]
    rfl

/-- Descriptor of the demo base class `A`: native allocator `10` and
destructor `20`. -/
def demoDescA : ClassDesc :=
  { name := ("A"), parent := none, user_ctor := true, alloc := some 10, gc := some 20, methods := [] }

/-- Descriptor of the demo derived class `B`: parent `A`, no native
capabilities of its own. -/
def demoDescB : ClassDesc :=
  { name := ("B"), parent := some ("A"), user_ctor := true, alloc := none, gc := none, methods := [] }

/-- Concrete registry for the construction witnesses: class `A` with a
native allocator and destructor, class `B` deriving from `A` with
neither. -/
def demoRegAB : Registry :=
  [(("A"), demoDescA), (("B"), demoDescB)]

/-- C3 witness: constructing `B` in the two-class registry takes the
payload from ancestor `A` but attaches class `B`. -/
theorem c3_witness :
    assoc demoRegAB ("B") = some demoDescB
    ∧ construct demoRegAB ("B") = some (mkInstance demoRegAB ("B"))
    ∧ (mkInstance demoRegAB ("B")).cls = ("B")
    ∧ (mkInstance demoRegAB ("B")).payload = some 10 :=
  ⟨by decide,
    (c3_construct_alloc demoRegAB ("B") demoDescB (by decide)).1,
    (c3_construct_alloc demoRegAB ("B") demoDescB (by decide)).2.1,
    by decide⟩

/-- C5: a super-call resolves the method starting one level above the
class that lexically defines the currently executing method — the
resolution is `resolveMethod` from the defining class's parent, is
entirely independent of the receiver's dynamic class, and reaches the
immediate parent's implementation whenever that parent defines the
method, whatever instance the method is executing on. -/
theorem c5_super_lexical (reg : Registry) (self : Inst) (D P : String)
    (dD dP : ClassDesc) (m : String) (f : Nat)
    (hD : assoc reg D = some dD) (hp : dD.parent = some P)
    (hP : assoc reg P = some dP) (hm : assoc dP.methods m = some f) :
    superResolve reg ⟨self, D⟩ m = some f
    ∧ superResolve reg ⟨self, D⟩ m = resolveMethod reg P m (reg.length + 1)
    ∧ (∀ self2 : Inst, superResolve reg ⟨self2, D⟩ m = superResolve reg ⟨self, D⟩ m) := by
  have hres : superResolve reg ⟨self, D⟩ m = resolveMethod reg P m (reg.length + 1) := by
    rw [superResolve]
    simp only [hD, hp]
  refine ⟨?_, hres, fun self2 => rfl⟩
  rw [hres, resolveMethod]
  simp only [hP, hm]

/-- Concrete three-level hierarchy for the super-call witness: base
`P0` defines `m` as function `7`; `D0` derives from `P0` and overrides
`m` with `9`; `G0` derives from `D0` and overrides `m` with `11`. -/
def demoRegSuper : Registry :=
  [(("P0"), { name := ("P0"), parent := none, user_ctor := true, alloc := none, gc := none, methods := [(("m"), 7)] }),
    (("D0"), { name := ("D0"), parent := some ("P0"), user_ctor := true, alloc := none, gc := none, methods := [(("m"), 9)] }),
    (("G0"), { name := ("G0"), parent := some ("D0"), user_ctor := true, alloc := none, gc := none, methods := [(("m"), 11)] })]

/-- C5 witness: a method defined in `D0`, executing on an instance
whose dynamic class is the grandchild `G0`, super-calls `m` and
reaches `P0`'s implementation `7` — not `G0`'s override `11` and not
`D0`'s own `9`. -/
theorem c5_witness :
    superResolve demoRegSuper ⟨mkInstance demoRegSuper ("G0"), ("D0")⟩ ("m") = some 7 :=
  (c5_super_lexical demoRegSuper (mkInstance demoRegSuper ("G0")) ("D0") ("P0")
    { name := ("D0"), parent := some ("P0"), user_ctor := true, alloc := none,
      gc := none, methods := [(("m"), 9)] }
    { name := ("P0"), parent := none, user_ctor := true, alloc := none,
      gc := none, methods := [(("m"), 7)] }
    ("m") 7 (by decide) (by decide) (by decide) (by decide)).1

/-- C6: when `__init` raises during construction of a registered
class, the result is `initFailed` carrying the very instance that
allocation built (the same instance a successful run would return), so
the instance exists, its payload is exactly what the alloc-ancestor
walk produced (no rollback), its destructor hook still fires on
collection, and the error is surfaced to the caller in the failure
result. -/
theorem c6_init_failure (reg : Registry) (initBeh : String → Option String)
    (n : String) (d : ClassDesc) (e : String)
    (h : assoc reg n = some d) (hf : initBeh n = some e) :
    constructFull reg initBeh n = .initFailed (mkInstance reg n) e
    ∧ (mkInstance reg n).payload
        = (findAllocDesc reg n (reg.length + 1)).bind (fun c => c.alloc)
    ∧ (∀ initOk : String → Option String, initOk n = none →
        constructFull reg initOk n = .ok (mkInstance reg n))
    ∧ (∀ g p, (mkInstance reg n).gcHook = some g → (mkInstance reg n).payload = some p →
        finalize (mkInstance reg n) = [(g, p)]) := by
  refine ⟨?_, rfl, ?_, ?_⟩
  · rw [constructFull, h]
    simp only [hf]
  · intro initOk hok
    rw [constructFull, h]
    simp only [hok]
  · intro g p hg hp
    rw [finalize, hg, hp]

/-- C6 witness: constructing `B` (payload and destructor inherited
from `A`) with a failing initializer — the failure result carries the
fully allocated instance and its destructor still fires. -/
theorem c6_witness :
    assoc demoRegAB ("B") = some demoDescB
    ∧ (fun s => if s = ("B") then some ("boom") else none) ("B") = some ("boom")
    ∧ constructFull demoRegAB (fun s => if s = ("B") then some ("boom") else none) ("B")
        = .initFailed (mkInstance demoRegAB ("B")) ("boom")
    ∧ finalize (mkInstance demoRegAB ("B")) = [(20, 10)] :=
  ⟨by decide, by decide,
    (c6_init_failure demoRegAB (fun s => if s = ("B") then some ("boom") else none)
      ("B") demoDescB ("boom") (by decide) (by decide)).1,
    (c6_init_failure demoRegAB (fun s => if s = ("B") then some ("boom") else none)
      ("B") demoDescB ("boom") (by decide) (by decide)).2.2.2 20 10
      (by decide) (by decide)⟩

theorem getParentField_overflow (reg : Registry) (fname : String) :
    ∀ depth n, (chainNames reg n (depth + 1)).length ≤ depth →
      getParentField reg n depth fname = none := by
  intro depth
  induction depth with
  | zero =>
    intro n h
    simp only [Nat.zero_add] at h
    cases hd : assoc reg n with
    | some d =>
      exfalso
      have hc : (chainNames reg n 1).length = 1 := by
        rw [chainNames]
        cases hp : d.parent <;> simp [hd, hp, chainNames]
      omega
    | none =>
      unfold getParentField walkUp
      simp [hd]
  | succ depth ih =>
    intro n h
    cases hd : assoc reg n with
    | none =>
      unfold getParentField walkUp
      simp [hd]
    | some d =>
      cases hp : d.parent with
      | none =>
        unfold getParentField walkUp
        simp [hd, hp]
      | some p =>
        have hw : walkUp reg n (depth + 1) = walkUp reg p depth := by
          rw [walkUp]
          simp only [hd, hp]
        have hc : chainNames reg n (depth + 1 + 1) = n :: chainNames reg p (depth + 1) := by
          rw [chainNames]
          simp only [hd, hp]
        rw [hc, List.length_cons] at h
        have h2 := ih p (by omega)
        unfold getParentField at h2 ⊢
        rw [hw]
        exact h2

/-- C7: a super-call whose method no ancestor defines yields the empty
result `.ok []` — silently, never an error — and `getParentField`
yields `none` (pushes nil, does not fail) whenever the requested depth
is at least the parent-chain length of the (registered) class, i.e.
strictly greater than the number of parents above it, the chain being
acyclic. -/
theorem c7_silent_edges :
    (∀ reg (ctx : ExecCtx) m callBeh, superResolve reg ctx m = none →
        superInvoke reg ctx m callBeh = .ok [])
    ∧ (∀ reg n (d : ClassDesc) depth fname, assoc reg n = some d →
        (chainNames reg n (reg.length + 1)).Nodup →
        (chainNames reg n (reg.length + 1)).length ≤ depth →
        getParentField reg n depth fname = none) := by
  constructor
  · intro reg ctx m callBeh h
    rw [superInvoke, h]
  · intro reg n d depth fname hd hnd hdepth
    apply getParentField_overflow
    rcases le_or_lt (depth + 1) (reg.length + 1) with hle | hlt
    · have := chainNames_length_mono reg (depth + 1) (reg.length + 1) n hle
      omega
    · have hlen : (chainNames reg n (reg.length + 1)).length < reg.length + 1 := by
        have := chainNames_nodup_length reg n hnd
        omega
      have hst := chainNames_stable reg (reg.length + 1) n
        (depth + 1 - (reg.length + 1)) hlen
      have hf : reg.length + 1 + (depth + 1 - (reg.length + 1)) = depth + 1 := by omega
      rw [hf] at hst
      rw [hst]
      omega

/-- C7 witness: in the two-class registry, a super-call to an
undefined method returns the empty result, and a parent-field lookup
two levels above `B` (which has exactly one parent) yields `none`. -/
theorem c7_witness :
    superResolve demoRegAB ⟨mkInstance demoRegAB ("B"), ("B")⟩ ("nosuch") = none
    ∧ superInvoke demoRegAB ⟨mkInstance demoRegAB ("B"), ("B")⟩ ("nosuch")
        (fun _ => []) = .ok []
    ∧ assoc demoRegAB ("B") = some demoDescB
    ∧ (chainNames demoRegAB ("B") 3).Nodup
    ∧ getParentField demoRegAB ("B") 2 ("x") = none :=
  ⟨by decide,
    c7_silent_edges.1 demoRegAB ⟨mkInstance demoRegAB ("B"), ("B")⟩ ("nosuch")
      (fun _ => []) (by decide),
    by decide, by decide,
    c7_silent_edges.2 demoRegAB ("B") demoDescB 2 ("x")
      (by decide) (by decide) (by decide)⟩

theorem self_mem_chainNames (reg : Registry) (fuel : Nat) (n : String) (d : ClassDesc)
    (hd : assoc reg n = some d) (hfuel : 1 ≤ fuel) : n ∈ chainNames reg n fuel := by
  obtain ⟨f, rfl⟩ : ∃ f, fuel = f + 1 := ⟨fuel - 1, by omega⟩
  rw [chainNames]
  cases hp : d.parent <;> simp [hd, hp]

/-- C4: `isInstance` is sound and complete for the spec's ancestor
relation — it holds exactly when the value is an object and the name
is the object's class or an ancestor reached by `parent` links
(completeness, and the stability of the fuelled walk beyond the
registry-size bound, i.e. termination, hold under the acyclic-parent
invariant); non-objects are never instances; and every instance
constructed from a registered class with a registered parent is an
instance of the parent's name and of every further ancestor. -/
theorem c4_isinstance_ancestors :
    (∀ reg (i : Inst) a, isInstance reg (.obj i) a = true → IsAncestor reg i.cls a)
    ∧ (∀ reg a, isInstance reg .other a = false)
    ∧ (∀ reg (i : Inst) a, (chainNames reg i.cls (reg.length + 1)).Nodup →
        IsAncestor reg i.cls a → isInstance reg (.obj i) a = true)
    ∧ (∀ reg n fuel, (chainNames reg n (reg.length + 1)).Nodup →
        reg.length + 1 ≤ fuel →
        chainNames reg n fuel = chainNames reg n (reg.length + 1))
    ∧ (∀ reg n (C : ClassDesc) P i, assoc reg n = some C → C.parent = some P →
        (assoc reg P).isSome = true → construct reg n = some i →
        isInstance reg (.obj i) P = true)
    ∧ (∀ reg n (C : ClassDesc) i a, assoc reg n = some C → construct reg n = some i →
        (chainNames reg n (reg.length + 1)).Nodup → IsAncestor reg n a →
        isInstance reg (.obj i) a = true) := by
  have hsound : ∀ reg (i : Inst) a, isInstance reg (.obj i) a = true →
      IsAncestor reg i.cls a := by
    intro reg i a h
    rw [isInstance] at h
    have hm : a ∈ chainNames reg i.cls (reg.length + 1) := by
      simpa [List.contains, List.elem_iff] using h
    exact mem_chain_isAncestor reg _ i.cls a hm
  have hcomplete : ∀ reg (i : Inst) a, (chainNames reg i.cls (reg.length + 1)).Nodup →
      IsAncestor reg i.cls a → isInstance reg (.obj i) a = true := by
    intro reg i a hnd h
    rw [isInstance]
    have hm := isAncestor_mem_chain_bound reg i.cls a hnd h
    simpa [List.contains, List.elem_iff] using hm
  have hconstr : ∀ reg n (C : ClassDesc) P i, assoc reg n = some C →
      C.parent = some P → (assoc reg P).isSome = true → construct reg n = some i →
      isInstance reg (.obj i) P = true := by
    intro reg n C P i hC hp hP hctor
    obtain ⟨dP, hdP⟩ : ∃ dP, assoc reg P = some dP := by
      cases hx : assoc reg P with
      | none => rw [hx] at hP; simp at hP
      | some dP => exact ⟨dP, rfl⟩
    have hicls : i = mkInstance reg n := by
      rw [construct, hC] at hctor
      exact (Option.some.injEq _ _).mp hctor |>.symm
    have hlen : 1 ≤ reg.length := by
      have hmem := assoc_isSome_mem_keys reg P hP
      have : reg.map Prod.fst ≠ [] := List.ne_nil_of_mem hmem
      have : reg ≠ [] := by
        intro hnil
        rw [hnil] at this
        exact this rfl
      cases reg with
      | nil => exact absurd rfl this
      | cons x xs => simp
    have hchain : chainNames reg n (reg.length + 1)
        = n :: chainNames reg P reg.length := by
      rw [chainNames]
      simp only [hC, hp]
    have hPmem : P ∈ chainNames reg n (reg.length + 1) := by
      rw [hchain]
      exact List.mem_cons_of_mem n (self_mem_chainNames reg reg.length P dP hdP hlen)
    rw [hicls, isInstance]
    have : (mkInstance reg n).cls = n := rfl
    rw [this]
    simpa [List.contains, List.elem_iff] using hPmem
  refine ⟨hsound, fun reg a => rfl, hcomplete, ?_, hconstr, ?_⟩
  · intro reg n fuel hnd hfuel
    have hlen : (chainNames reg n (reg.length + 1)).length < reg.length + 1 := by
      have := chainNames_nodup_length reg n hnd
      omega
    have hst := chainNames_stable reg (reg.length + 1) n (fuel - (reg.length + 1)) hlen
    have hf : reg.length + 1 + (fuel - (reg.length + 1)) = fuel := by omega
    rw [hf] at hst
    exact hst
  · intro reg n C i a hC hctor hnd hanc
    have hicls : i = mkInstance reg n := by
      rw [construct, hC] at hctor
      exact (Option.some.injEq _ _).mp hctor |>.symm
    have : (mkInstance reg n).cls = n := rfl
    apply hcomplete
    · rw [hicls, this]
      exact hnd
    · rw [hicls, this]
      exact hanc

/-- Descriptor of the demo base class `P0`. -/
def demoDescP0 : ClassDesc :=
  { name := ("P0"), parent := none, user_ctor := true, alloc := none, gc := none, methods := [(("m"), 7)] }

/-- Descriptor of the demo middle class `D0`. -/
def demoDescD0 : ClassDesc :=
  { name := ("D0"), parent := some ("P0"), user_ctor := true, alloc := none, gc := none, methods := [(("m"), 9)] }

/-- Descriptor of the demo grandchild class `G0`. -/
def demoDescG0 : ClassDesc :=
  { name := ("G0"), parent := some ("D0"), user_ctor := true, alloc := none, gc := none, methods := [(("m"), 11)] }

/-- C4 witness: an instance constructed from the grandchild `G0` is an
instance of its parent `D0` and of its grandparent `P0`. -/
theorem c4_witness :
    assoc demoRegSuper ("G0") = some demoDescG0
    ∧ construct demoRegSuper ("G0") = some (mkInstance demoRegSuper ("G0"))
    ∧ isInstance demoRegSuper (.obj (mkInstance demoRegSuper ("G0"))) ("D0") = true
    ∧ isInstance demoRegSuper (.obj (mkInstance demoRegSuper ("G0"))) ("P0") = true :=
  ⟨by decide, by decide,
    c4_isinstance_ancestors.2.2.2.2.1 demoRegSuper ("G0") demoDescG0 ("D0")
      (mkInstance demoRegSuper ("G0")) (by decide) (by decide) (by decide) (by decide),
    c4_isinstance_ancestors.2.2.2.2.2 demoRegSuper ("G0") demoDescG0
      (mkInstance demoRegSuper ("G0")) ("P0") (by decide) (by decide) (by decide)
      (IsAncestor.step ("G0") ("D0") ("P0") demoDescG0 (by decide) (by decide)
        (IsAncestor.step ("D0") ("P0") ("P0") demoDescD0 (by decide) (by decide)
          (IsAncestor.self ("P0") demoDescP0 (by decide))))⟩
